import Mathlib

/-!
# Echo Chamber — shallow embedding and verification

Shallow embedding of the Echo Chamber sequence predictor
(`EchoChamber` class: `validateSequence`, `predictNext`, `getMemories`,
`clearMemories`) and of the relevant HTTP handlers of `server.js`
(`GET /api/test`, `GET /api/memories`).

Modelling choices:
* JavaScript numbers are modelled by `JSNum`: a finite value carried as a
  rational (`ℚ`), positive/negative infinity, and NaN.  Subtraction,
  addition and strict equality (`===`) follow IEEE/JS semantics on these
  constructors; finite arithmetic is exact (the code uses exact `===`
  comparison of differences, with no epsilon tolerance).
* A JavaScript value passed as a sequence element is a `JSValue`: either a
  number (`typeof x === 'number'`) or any non-number value.
* The argument of `validateSequence`/`predictNext` is an `Input`: either a
  non-array value or an array of `JSValue`s.
* The instance state (`this.echoMemories`, `this.predictionCount`) is the
  structure `EchoChamber`; the methods that touch `this` are state-passing
  functions.  `new Date().toLocaleTimeString()` is nondeterministic, so the
  timestamp is passed to `predictNext` as an explicit argument.
-/

/-- A JavaScript number: finite (exact value as a rational), ±Infinity, or NaN. -/
inductive JSNum where
  | fin (q : ℚ)
  | posInf
  | negInf
  | nan
  deriving DecidableEq, Repr

/-- JS subtraction `a - b` on numbers (IEEE semantics on the special values). -/
def jsSub : JSNum → JSNum → JSNum
  | JSNum.fin a, JSNum.fin b => JSNum.fin (a - b)
  | JSNum.fin _, JSNum.posInf => JSNum.negInf
  | JSNum.fin _, JSNum.negInf => JSNum.posInf
  | JSNum.posInf, JSNum.fin _ => JSNum.posInf
  | JSNum.negInf, JSNum.fin _ => JSNum.negInf
  | JSNum.posInf, JSNum.posInf => JSNum.nan
  | JSNum.posInf, JSNum.negInf => JSNum.posInf
  | JSNum.negInf, JSNum.posInf => JSNum.negInf
  | JSNum.negInf, JSNum.negInf => JSNum.nan
  | JSNum.nan, _ => JSNum.nan
  | _, JSNum.nan => JSNum.nan

/-- JS addition `a + b` on numbers (IEEE semantics on the special values). -/
def jsAdd : JSNum → JSNum → JSNum
  | JSNum.fin a, JSNum.fin b => JSNum.fin (a + b)
  | JSNum.fin _, JSNum.posInf => JSNum.posInf
  | JSNum.fin _, JSNum.negInf => JSNum.negInf
  | JSNum.posInf, JSNum.fin _ => JSNum.posInf
  | JSNum.negInf, JSNum.fin _ => JSNum.negInf
  | JSNum.posInf, JSNum.posInf => JSNum.posInf
  | JSNum.posInf, JSNum.negInf => JSNum.nan
  | JSNum.negInf, JSNum.posInf => JSNum.nan
  | JSNum.negInf, JSNum.negInf => JSNum.negInf
  | JSNum.nan, _ => JSNum.nan
  | _, JSNum.nan => JSNum.nan

/-- JS strict equality `a === b` on numbers: NaN compares unequal to
everything (itself included); finite values compare exactly. -/
def jsEq : JSNum → JSNum → Bool
  | JSNum.fin a, JSNum.fin b => decide (a = b)
  | JSNum.posInf, JSNum.posInf => true
  | JSNum.negInf, JSNum.negInf => true
  | _, _ => false

/-- `isNaN` restricted to numbers (in `validateSequence` it is only reached
after `typeof num === 'number'` holds, so no string coercion arises). -/
def jsIsNaN : JSNum → Bool
  | JSNum.nan => true
  | _ => false

/-- A JavaScript value appearing as an array element: a number, or any value
whose `typeof` is not `'number'`. -/
inductive JSValue where
  | num (v : JSNum)
  | nonNum
  deriving DecidableEq, Repr

/-- `typeof x === 'number' && !isNaN(x)` — the per-element check of
`validateSequence` (line 54 of the source). -/
def isValidNumber : JSValue → Bool
  | JSValue.num v => !(jsIsNaN v)
  | JSValue.nonNum => false

/-- Reads the numeric value of an element.  It is only applied after the
per-element check has passed, so every element is a number; the `nonNum`
case is unreachable there and maps to NaN. -/
def asNum : JSValue → JSNum
  | JSValue.num v => v
  | JSValue.nonNum => JSNum.nan

/-- The argument passed to `validateSequence`/`predictNext`: either a value
that is not an array (`Array.isArray` fails) or an array of elements. -/
inductive Input where
  | notArray
  | arr (xs : List JSValue)
  deriving DecidableEq, Repr

/-- The element list of an input (`[]` for a non-array value; only used on
inputs that passed validation, which are arrays). -/
def Input.toList : Input → List JSValue
  | Input.notArray => []
  | Input.arr xs => xs

/-- `{ isValid, difference, message }` as returned by `validateSequence`.
`difference: null` is `none`. -/
structure ValidationResult where
  isValid : Bool
  difference : Option JSNum
  message : String
  deriving DecidableEq, Repr

/-- `{ success, nextNumber, commonDifference, message }` as returned by
`predictNext`.  On failure the JS object carries no `commonDifference`
key; that absence is `none`. -/
structure Prediction where
  success : Bool
  nextNumber : Option JSNum
  commonDifference : Option JSNum
  message : String
  deriving DecidableEq, Repr

/-- A history entry pushed onto `this.echoMemories` (source lines 109–115). -/
structure Memory where
  sequence : List JSValue
  nextNumber : JSNum
  commonDifference : JSNum
  timestamp : String
  predictionIndex : Nat
  deriving DecidableEq, Repr

/-- The mutable instance state of the `EchoChamber` class. -/
structure EchoChamber where
  echoMemories : List Memory
  predictionCount : Nat
  deriving DecidableEq, Repr

/-- `new EchoChamber()` (constructor, source lines 21–26). -/
def EchoChamber.init : EchoChamber :=
  { echoMemories := [], predictionCount := 0 }

/-- Rendering of a number into the success message (template string at
source line 123).  Cosmetic only; no claim depends on this text. -/
def jsNumToString : JSNum → String
  | JSNum.fin q => if q.den = 1 then toString q.num else toString q
  | JSNum.posInf => "Infinity"
  | JSNum.negInf => "-Infinity"
  | JSNum.nan => "NaN"

/-- `EchoChamber.validateSequence` (source lines 35–85), translated branch by
branch: not-an-array check, length check, per-element number check, then the
consecutive differences `d[i] = seq[i] - seq[i-1]` and the exact-equality
test of every difference against `differences[0]`. -/
def validateSequence : Input → ValidationResult
  | Input.notArray =>
    { isValid := false, difference := none,
      message := "❌ Error: Input must be an array" }
  | Input.arr xs =>
    if xs.length < 2 then
      { isValid := false, difference := none,
        message := "❌ Error: Sequence must contain at least 2 numbers" }
    else if !(xs.all isValidNumber) then
      { isValid := false, difference := none,
        message := "❌ Error: All elements must be valid numbers" }
    else
      let nums := xs.map asNum
      let differences := List.zipWith jsSub nums.tail nums
      let firstDifference := differences.headD JSNum.nan
      let isArithmetic := differences.all fun d => jsEq d firstDifference
      if isArithmetic then
        { isValid := true, difference := some firstDifference,
          message := "✓ Valid arithmetic progression detected!" }
      else
        { isValid := false, difference := none,
          message := "❌ Error: This is not an arithmetic progression. The differences between consecutive numbers are not constant." }

/-- `EchoChamber.predictNext` (source lines 93–125): validates, and on
success computes `sequence[sequence.length - 1] + validation.difference`,
pushes a `Memory` entry with index `predictionCount + 1`, and increments the
counter.  The array and the difference are recovered through total accessors
(`Input.toList`, `Option.getD`); on the taken branch the input is an array of
length ≥ 2 and the difference is present, so the defaults are unreachable. -/
def predictNext (s : EchoChamber) (input : Input) (ts : String) :
    Prediction × EchoChamber :=
  let validation := validateSequence input
  if validation.isValid then
    let xs := input.toList
    let d := validation.difference.getD JSNum.nan
    let nextNumber := jsAdd (asNum (xs.getLastD (JSValue.num JSNum.nan))) d
    let entry : Memory :=
      { sequence := xs, nextNumber := nextNumber, commonDifference := d,
        timestamp := ts, predictionIndex := s.predictionCount + 1 }
    ({ success := true, nextNumber := some nextNumber,
       commonDifference := some d,
       message := "✓ The next number in the sequence is: " ++
         jsNumToString nextNumber },
     { echoMemories := s.echoMemories ++ [entry],
       predictionCount := s.predictionCount + 1 })
  else
    ({ success := false, nextNumber := none, commonDifference := none,
       message := validation.message }, s)

/-- `EchoChamber.getMemories` (source lines 132–134): returns
`this.echoMemories`, touching no state. -/
def getMemories (s : EchoChamber) : List Memory × EchoChamber :=
  (s.echoMemories, s)

/-- `EchoChamber.clearMemories` (source lines 139–142): empties the history
and resets the counter to 0. -/
def clearMemories (_ : EchoChamber) : EchoChamber :=
  { echoMemories := [], predictionCount := 0 }

/-- A call of `validateSequence` as a state transition: the method body
(source lines 35–85) never assigns to `this`, so the state passes through
unchanged and the result depends only on the argument. -/
def validateOp (s : EchoChamber) (input : Input) :
    ValidationResult × EchoChamber :=
  (validateSequence input, s)

/-- One public operation on an `EchoChamber` instance. -/
inductive Op where
  | predict (input : Input) (ts : String)
  | validate (input : Input)
  | getMems
  | clear
  deriving DecidableEq, Repr

/-- Effect of one operation on the instance state. -/
def step (s : EchoChamber) : Op → EchoChamber
  | Op.predict input ts => (predictNext s input ts).2
  | Op.validate input => (validateOp s input).2
  | Op.getMems => (getMemories s).2
  | Op.clear => clearMemories s

/-- State after a sequence of operations. -/
def run (s : EchoChamber) (ops : List Op) : EchoChamber :=
  ops.foldl step s

/-- Whether an operation is a `predictNext` call that succeeds (success
depends only on the input, since validation reads no state). -/
def isSuccPredict : Op → Bool
  | Op.predict input _ => (validateSequence input).isValid
  | _ => false

/-- Number of successful `predictNext` calls in a trace. -/
def succCount (ops : List Op) : Nat :=
  (ops.filter isSuccPredict).length

/-- Embedding of an array of finite JS numbers. -/
def finSeq (qs : List ℚ) : Input :=
  Input.arr (qs.map fun q => JSValue.num (JSNum.fin q))

/-- Response body of `GET /api/test`. -/
structure TestResponse where
  success : Bool
  result : Prediction
  message : String
  deriving DecidableEq, Repr

/-- The `GET /api/test` handler (server.js lines 132–148): constructs a fresh
`EchoChamber`, runs `predictNext([3, 6, 9, 12])` on it, and responds with
`{ success: result.success, result, message: 'Server is working correctly' }`.
The shared `chamber` instance is in scope but untouched. -/
def apiTestHandler (chamber : EchoChamber) (ts : String) :
    TestResponse × EchoChamber :=
  let testChamber := EchoChamber.init
  let result := (predictNext testChamber (finSeq [3, 6, 9, 12]) ts).1
  ({ success := result.success, result := result,
     message := "Server is working correctly" }, chamber)

/-- The `GET /api/memories` handler (server.js lines 62–75): responds with
`{ memories: chamber.getMemories(), count: memories.length }`. -/
def apiMemoriesHandler (chamber : EchoChamber) :
    (List Memory × Nat) × EchoChamber :=
  let memories := (getMemories chamber).1
  ((memories, memories.length), chamber)

/-! ## Helper lemmas -/

/-- The consecutive differences of a rational sequence, as the `for` loop of
`validateSequence` computes them: `d[i] = seq[i] - seq[i-1]` for `i ≥ 1`. -/
def rdiffs (qs : List ℚ) : List ℚ :=
  List.zipWith (fun b a => b - a) qs.tail qs

lemma all_map_gen {α β : Type} (f : α → β) (p : β → Bool) (l : List α) :
    (l.map f).all p = l.all (fun x => p (f x)) := by
  induction l with
  | nil => rfl
  | cons a tl ih => simp only [List.map_cons, List.all_cons, ih]

lemma finSeq_all_valid (qs : List ℚ) :
    ((qs.map fun q => JSValue.num (JSNum.fin q)).all isValidNumber) = true := by
  rw [all_map_gen]
  simp [isValidNumber, jsIsNaN]

lemma map_tail_comm {α β : Type} (f : α → β) (l : List α) :
    (l.map f).tail = l.tail.map f := by
  cases l <;> rfl

lemma zipWith_jsSub_fin (l₁ l₂ : List ℚ) :
    List.zipWith jsSub (l₁.map JSNum.fin) (l₂.map JSNum.fin) =
      (List.zipWith (fun b a => b - a) l₁ l₂).map JSNum.fin := by
  rw [List.zipWith_map, List.map_zipWith]
  rfl

lemma differences_finSeq (qs : List ℚ) :
    List.zipWith jsSub ((qs.map fun q => JSValue.num (JSNum.fin q)).map asNum).tail
        ((qs.map fun q => JSValue.num (JSNum.fin q)).map asNum) =
      (rdiffs qs).map JSNum.fin := by
  have h : (qs.map fun q => JSValue.num (JSNum.fin q)).map asNum = qs.map JSNum.fin := by
    rw [List.map_map]; rfl
  rw [h, map_tail_comm, zipWith_jsSub_fin]; rfl

lemma rdiffs_length (qs : List ℚ) : (rdiffs qs).length = qs.length - 1 := by
  cases qs with
  | nil => rfl
  | cons a tl => simp [rdiffs, List.length_zipWith]

lemma headD_map_fin (l : List ℚ) (h : l ≠ []) :
    (l.map JSNum.fin).headD JSNum.nan = JSNum.fin (l.headD 0) := by
  cases l with
  | nil => exact absurd rfl h
  | cons a tl => rfl

lemma all_jsEq_map_fin (l : List ℚ) (r : ℚ) :
    ((l.map JSNum.fin).all fun d => jsEq d (JSNum.fin r)) =
      l.all fun x => decide (x = r) := by
  rw [all_map_gen]
  rfl

/-- On an array of finite numbers of length ≥ 2, `validateSequence` reduces
to the exact-equality test of all consecutive differences against the first
one. -/
lemma validate_finSeq (qs : List ℚ) (h2 : 2 ≤ qs.length) :
    validateSequence (finSeq qs) =
      if (rdiffs qs).all (fun x => decide (x = (rdiffs qs).headD 0)) then
        { isValid := true, difference := some (JSNum.fin ((rdiffs qs).headD 0)),
          message := "✓ Valid arithmetic progression detected!" }
      else
        { isValid := false, difference := none,
          message := "❌ Error: This is not an arithmetic progression. The differences between consecutive numbers are not constant." } := by
  have hne : rdiffs qs ≠ [] := by
    intro hnil
    have := rdiffs_length qs
    rw [hnil] at this
    simp at this
    omega
  have hlen : ¬ ((qs.map fun q => JSValue.num (JSNum.fin q)).length < 2) := by
    rw [List.length_map]; omega
  show validateSequence (Input.arr (qs.map fun q => JSValue.num (JSNum.fin q))) = _
  rw [validateSequence]
  rw [if_neg hlen, finSeq_all_valid]
  simp only [Bool.not_true, Bool.false_eq_true, if_false]
  rw [differences_finSeq, headD_map_fin _ hne, all_jsEq_map_fin]

lemma getLastD_finSeq (qs : List ℚ) (h : qs ≠ []) :
    ((qs.map fun q => JSValue.num (JSNum.fin q)).getLastD (JSValue.num JSNum.nan)) =
      JSValue.num (JSNum.fin (qs.getLastD 0)) := by
  rw [List.getLastD_eq_getLast?, List.getLast?_map, List.getLastD_eq_getLast?]
  cases hq : qs.getLast? with
  | none =>
    exact absurd (List.getLast?_eq_none_iff.mp hq) h
  | some x => rfl

lemma predictNext_success_eq (s : EchoChamber) (input : Input) (ts : String) :
    (predictNext s input ts).1.success = (validateSequence input).isValid := by
  cases hv : (validateSequence input).isValid <;> simp [predictNext, hv]

lemma predictNext_state_false (s : EchoChamber) (input : Input) (ts : String)
    (hv : (validateSequence input).isValid = false) :
    (predictNext s input ts).2 = s := by
  simp [predictNext, hv]

lemma predictNext_state_true (s : EchoChamber) (input : Input) (ts : String)
    (hv : (validateSequence input).isValid = true) :
    (predictNext s input ts).2 =
      { echoMemories := s.echoMemories ++
          [{ sequence := input.toList,
             nextNumber := jsAdd (asNum (input.toList.getLastD (JSValue.num JSNum.nan)))
               ((validateSequence input).difference.getD JSNum.nan),
             commonDifference := (validateSequence input).difference.getD JSNum.nan,
             timestamp := ts,
             predictionIndex := s.predictionCount + 1 }],
        predictionCount := s.predictionCount + 1 } := by
  simp [predictNext, hv]

/-- The per-instance invariant behind the history bookkeeping: the counter
equals the history length and the stored indices are exactly `1..length`. -/
def chamberInv (s : EchoChamber) : Prop :=
  s.predictionCount = s.echoMemories.length ∧
  s.echoMemories.map Memory.predictionIndex = List.range' 1 s.echoMemories.length

lemma chamberInv_init : chamberInv EchoChamber.init := ⟨rfl, rfl⟩

lemma chamberInv_step (s : EchoChamber) (op : Op) (h : chamberInv s) :
    chamberInv (step s op) := by
  obtain ⟨hc, hm⟩ := h
  cases op with
  | predict input ts =>
    cases hv : (validateSequence input).isValid with
    | false =>
      show chamberInv (predictNext s input ts).2
      rw [predictNext_state_false s input ts hv]
      exact ⟨hc, hm⟩
    | true =>
      show chamberInv (predictNext s input ts).2
      rw [predictNext_state_true s input ts hv]
      constructor
      · simp [hc]
      · simp only [List.map_append, List.length_append, List.map_cons, List.map_nil,
          List.length_cons, List.length_nil]
        rw [hm, hc, List.range'_concat]
        simp [Nat.add_comm]
  | validate input => exact ⟨hc, hm⟩
  | getMems => exact ⟨hc, hm⟩
  | clear => exact ⟨rfl, rfl⟩

lemma chamberInv_run (ops : List Op) (s : EchoChamber) (h : chamberInv s) :
    chamberInv (run s ops) := by
  induction ops generalizing s with
  | nil => exact h
  | cons op rest ih => exact ih (step s op) (chamberInv_step s op h)

lemma run_length_noclear (ops : List Op) (s : EchoChamber)
    (h : ∀ op ∈ ops, op ≠ Op.clear) :
    (run s ops).echoMemories.length = s.echoMemories.length + succCount ops := by
  induction ops generalizing s with
  | nil => rfl
  | cons op rest ih =>
    have hop : op ≠ Op.clear := h op (List.mem_cons_self op rest)
    have hrest : ∀ o ∈ rest, o ≠ Op.clear := fun o ho => h o (List.mem_cons_of_mem op ho)
    show (run (step s op) rest).echoMemories.length = _
    rw [ih (step s op) hrest]
    have hstep : (step s op).echoMemories.length =
        s.echoMemories.length + (if isSuccPredict op then 1 else 0) := by
      cases op with
      | predict input ts =>
        cases hv : (validateSequence input).isValid with
        | false =>
          show (predictNext s input ts).2.echoMemories.length = _
          rw [predictNext_state_false s input ts hv]
          simp [isSuccPredict, hv]
        | true =>
          show (predictNext s input ts).2.echoMemories.length = _
          rw [predictNext_state_true s input ts hv]
          simp [isSuccPredict, hv]
      | validate input => simp [step, validateOp, isSuccPredict]
      | getMems => simp [step, getMemories, isSuccPredict]
      | clear => exact absurd rfl hop
    rw [hstep]
    have hsc : succCount (op :: rest) = (if isSuccPredict op then 1 else 0) + succCount rest := by
      by_cases hb : isSuccPredict op
      · simp only [succCount, List.filter_cons, hb, if_true, List.length_cons]
        omega
      · simp [succCount, List.filter_cons, hb]
    rw [hsc]
    omega

lemma run_no_success (ops : List Op) (h : ∀ op ∈ ops, isSuccPredict op = false)
    (s : EchoChamber) (hs : s.echoMemories = []) :
    (run s ops).echoMemories = [] := by
  induction ops generalizing s with
  | nil => exact hs
  | cons op rest ih =>
    have hop : isSuccPredict op = false := h op (List.mem_cons_self op rest)
    have hrest : ∀ o ∈ rest, isSuccPredict o = false :=
      fun o ho => h o (List.mem_cons_of_mem op ho)
    refine ih hrest (step s op) ?_
    cases op with
    | predict input ts =>
      have hv : (validateSequence input).isValid = false := by
        simpa [isSuccPredict] using hop
      show (predictNext s input ts).2.echoMemories = []
      rw [predictNext_state_false s input ts hv]
      exact hs
    | validate input => exact hs
    | getMems => exact hs
    | clear => rfl

lemma finSeq_toList (qs : List ℚ) :
    (finSeq qs).toList = qs.map fun q => JSValue.num (JSNum.fin q) := rfl

lemma predictNext_nextNumber (s : EchoChamber) (input : Input) (ts : String)
    (hv : (validateSequence input).isValid = true) :
    (predictNext s input ts).1.nextNumber =
      some (jsAdd (asNum (input.toList.getLastD (JSValue.num JSNum.nan)))
        ((validateSequence input).difference.getD JSNum.nan)) := by
  simp only [predictNext, hv, if_true]

lemma rdiffs_headD (qs : List ℚ) (h2 : 2 ≤ qs.length) :
    (rdiffs qs).headD 0 = qs.getD 1 0 - qs.getD 0 0 := by
  cases qs with
  | nil => simp at h2
  | cons a tl =>
    cases tl with
    | nil => simp at h2
    | cons b tl' => rfl

/-! ## Claim theorems -/

/-- C1: for every array of length ≥ 2 of finite numbers whose consecutive
differences all equal a constant `d`, `predictNext` returns `success = true`,
`commonDifference = d`, and `nextNumber` equal to the last element plus `d`. -/
theorem predictNext_constant_step (s : EchoChamber) (ts : String) (qs : List ℚ) (d : ℚ)
    (h2 : 2 ≤ qs.length) (hd : ∀ x ∈ rdiffs qs, x = d) :
    (predictNext s (finSeq qs) ts).1.success = true ∧
    (predictNext s (finSeq qs) ts).1.commonDifference = some (JSNum.fin d) ∧
    (predictNext s (finSeq qs) ts).1.nextNumber =
      some (JSNum.fin (qs.getLastD 0 + d)) := by
  have hne0 : qs ≠ [] := by
    intro h0; rw [h0] at h2; simp at h2
  have hne : rdiffs qs ≠ [] := by
    intro h0
    have hl := rdiffs_length qs
    rw [h0] at hl
    simp at hl
    omega
  have hhead : (rdiffs qs).headD 0 = d := by
    cases hrd : rdiffs qs with
    | nil => exact absurd hrd hne
    | cons x tl =>
      have hx : x ∈ rdiffs qs := by rw [hrd]; exact List.mem_cons_self x tl
      simpa using hd x hx
  have hall : ((rdiffs qs).all fun x => decide (x = (rdiffs qs).headD 0)) = true := by
    rw [List.all_eq_true]
    intro x hx
    rw [hhead]
    exact decide_eq_true (hd x hx)
  have hval : validateSequence (finSeq qs) =
      { isValid := true, difference := some (JSNum.fin d),
        message := "✓ Valid arithmetic progression detected!" } := by
    rw [validate_finSeq qs h2, if_pos hall, hhead]
  refine ⟨?_, ?_, ?_⟩
  · simp [predictNext, hval]
  · simp [predictNext, hval]
  · rw [predictNext_nextNumber s (finSeq qs) ts (by rw [hval])]
    rw [hval, finSeq_toList, getLastD_finSeq qs hne0]
    rfl

/-- Witness for C1 at the concrete sequences named in the claim. -/
theorem predictNext_constant_step_witness :
    (2 ≤ ([3, 6, 9, 12] : List ℚ).length ∧ ∀ x ∈ rdiffs [3, 6, 9, 12], x = (3 : ℚ)) ∧
    (predictNext EchoChamber.init (finSeq [3, 6, 9, 12]) "t").1.success = true ∧
    (predictNext EchoChamber.init (finSeq [3, 6, 9, 12]) "t").1.commonDifference =
      some (JSNum.fin 3) ∧
    (predictNext EchoChamber.init (finSeq [3, 6, 9, 12]) "t").1.nextNumber =
      some (JSNum.fin 15) ∧
    (predictNext EchoChamber.init (finSeq [10, 7, 4, 1]) "t").1.nextNumber =
      some (JSNum.fin (-2)) ∧
    (predictNext EchoChamber.init (finSeq [7, 7, 7, 7]) "t").1.nextNumber =
      some (JSNum.fin 7) ∧
    (predictNext EchoChamber.init (finSeq [5, 10]) "t").1.nextNumber =
      some (JSNum.fin 15) := by
  have h1 := predictNext_constant_step EchoChamber.init "t" [3, 6, 9, 12] 3
    (by norm_num) (by norm_num [rdiffs])
  have h2 := predictNext_constant_step EchoChamber.init "t" [10, 7, 4, 1] (-3)
    (by norm_num) (by norm_num [rdiffs])
  have h3 := predictNext_constant_step EchoChamber.init "t" [7, 7, 7, 7] 0
    (by norm_num) (by norm_num [rdiffs])
  have h4 := predictNext_constant_step EchoChamber.init "t" [5, 10] 5
    (by norm_num) (by norm_num [rdiffs])
  refine ⟨⟨by norm_num, by norm_num [rdiffs]⟩, h1.1, h1.2.1, ?_, ?_, ?_, ?_⟩
  · rw [h1.2.2]; norm_num [List.getLastD_cons]
  · rw [h2.2.2]; norm_num [List.getLastD_cons]
  · rw [h3.2.2]; norm_num [List.getLastD_cons]
  · rw [h4.2.2]; norm_num [List.getLastD_cons]

/-- C4: for every array of length ≥ 2 of finite numbers, `validateSequence`
returns `isValid = true` with `difference = seq[1] - seq[0]` exactly when
every consecutive difference equals the first difference (exact equality, no
epsilon), and `isValid = false` with `difference = null` otherwise; in
particular `validateSequence([1,2,4,8])` returns `isValid = false`. -/
theorem validateSequence_exact_iff (qs : List ℚ) (h2 : 2 ≤ qs.length) :
    (((validateSequence (finSeq qs)).isValid = true ∧
      (validateSequence (finSeq qs)).difference =
        some (JSNum.fin (qs.getD 1 0 - qs.getD 0 0))) ↔
      ∀ x ∈ rdiffs qs, x = qs.getD 1 0 - qs.getD 0 0) ∧
    ((¬ ∀ x ∈ rdiffs qs, x = qs.getD 1 0 - qs.getD 0 0) →
      (validateSequence (finSeq qs)).isValid = false ∧
      (validateSequence (finSeq qs)).difference = none) ∧
    (validateSequence (finSeq [1, 2, 4, 8])).isValid = false := by
  have hh := rdiffs_headD qs h2
  have hcond : (((rdiffs qs).all fun x => decide (x = (rdiffs qs).headD 0)) = true) ↔
      ∀ x ∈ rdiffs qs, x = qs.getD 1 0 - qs.getD 0 0 := by
    simp only [List.all_eq_true, decide_eq_true_eq, hh]
  refine ⟨⟨?_, ?_⟩, ?_, ?_⟩
  · rintro ⟨hv, _⟩
    by_contra hnot
    rw [validate_finSeq qs h2, if_neg (fun hb => hnot (hcond.mp hb))] at hv
    simp at hv
  · intro h
    rw [validate_finSeq qs h2, if_pos (hcond.mpr h)]
    exact ⟨rfl, by rw [hh]⟩
  · intro hnot
    rw [validate_finSeq qs h2, if_neg (fun hb => hnot (hcond.mp hb))]
    exact ⟨rfl, rfl⟩
  · norm_num [validateSequence, finSeq, isValidNumber, jsIsNaN, asNum, jsSub, jsEq]

/-- Witness for C4 at the concrete progression `[1, 2, 3, 4]`. -/
theorem validateSequence_exact_iff_witness :
    2 ≤ ([1, 2, 3, 4] : List ℚ).length ∧
    (validateSequence (finSeq [1, 2, 3, 4])).isValid = true ∧
    (validateSequence (finSeq [1, 2, 3, 4])).difference =
      some (JSNum.fin (([1, 2, 3, 4] : List ℚ).getD 1 0 - ([1, 2, 3, 4] : List ℚ).getD 0 0)) := by
  have h := ((validateSequence_exact_iff [1, 2, 3, 4] (by norm_num)).1).mpr
    (by norm_num [rdiffs, List.getD_cons_zero, List.getD_cons_succ])
  exact ⟨by norm_num, h.1, h.2⟩

/-- C3 counterexample: `[1, Infinity]` has an element that is not a finite
number, yet `validateSequence` accepts it (`isValid = true` with a non-null
difference) — the per-element check tests only `typeof` and `isNaN`, not
finiteness. -/
theorem validateSequence_accepts_infinity :
    (validateSequence (Input.arr [JSValue.num (JSNum.fin 1),
        JSValue.num JSNum.posInf])).isValid = true ∧
    (validateSequence (Input.arr [JSValue.num (JSNum.fin 1),
        JSValue.num JSNum.posInf])).difference = some JSNum.posInf := by
  constructor <;>
    norm_num [validateSequence, isValidNumber, jsIsNaN, asNum, jsSub, jsEq]

/-- C3 (amended): `validateSequence` returns `isValid = false` and
`difference = null` whenever the input is not an array, or its length is less
than 2, or any element is not a number or is NaN.  Non-finite numeric
elements (±Infinity) are not rejected by the per-element check. -/
theorem validateSequence_rejects (input : Input)
    (h : input = Input.notArray ∨ input.toList.length < 2 ∨
      ∃ x ∈ input.toList, isValidNumber x = false) :
    (validateSequence input).isValid = false ∧
    (validateSequence input).difference = none := by
  cases input with
  | notArray => exact ⟨rfl, rfl⟩
  | arr xs =>
    rcases h with h | h | h
    · exact absurd h (by simp)
    · have hlen : xs.length < 2 := h
      simp [validateSequence, hlen]
    · by_cases hlen : xs.length < 2
      · simp [validateSequence, hlen]
      · have hall : xs.all isValidNumber = false := by
          cases hb : xs.all isValidNumber with
          | false => rfl
          | true =>
            rcases h with ⟨x, hx, hfx⟩
            have htrue := (List.all_eq_true.mp hb) x hx
            rw [hfx] at htrue
            exact absurd htrue (by simp)
        simp [validateSequence, hlen, hall]

/-- Witness for C3 (amended) at a non-array input. -/
theorem validateSequence_rejects_witness :
    (Input.notArray = Input.notArray ∨ Input.notArray.toList.length < 2 ∨
      ∃ x ∈ Input.notArray.toList, isValidNumber x = false) ∧
    (validateSequence Input.notArray).isValid = false ∧
    (validateSequence Input.notArray).difference = none := by
  refine ⟨Or.inl rfl, ?_, ?_⟩
  · exact (validateSequence_rejects Input.notArray (Or.inl rfl)).1
  · exact (validateSequence_rejects Input.notArray (Or.inl rfl)).2

/-- C5: when validation fails, `predictNext` returns `success = false`,
`nextNumber = null` and the validation's message, and leaves the instance
state unchanged — no `Memory` entry is appended and the prediction counter is
not incremented. -/
theorem predictNext_failure_frame (s : EchoChamber) (input : Input) (ts : String)
    (h : (validateSequence input).isValid = false) :
    predictNext s input ts =
      ({ success := false, nextNumber := none, commonDifference := none,
         message := (validateSequence input).message }, s) := by
  simp [predictNext, h]

/-- Witness for C5 at a non-array input. -/
theorem predictNext_failure_frame_witness :
    (validateSequence Input.notArray).isValid = false ∧
    predictNext EchoChamber.init Input.notArray "t" =
      ({ success := false, nextNumber := none, commonDifference := none,
         message := (validateSequence Input.notArray).message }, EchoChamber.init) :=
  ⟨rfl, predictNext_failure_frame EchoChamber.init Input.notArray "t" rfl⟩

/-- C6: `validateSequence` is pure and idempotent — its result depends only
on the input (not the instance state), it never changes the state, and a
repeated call returns the identical result. -/
theorem validateOp_pure (s₁ s₂ : EchoChamber) (input : Input) :
    (validateOp s₁ input).1 = (validateOp s₂ input).1 ∧
    (validateOp s₁ input).2 = s₁ ∧
    (validateOp (validateOp s₁ input).2 input).1 = (validateOp s₁ input).1 :=
  ⟨rfl, rfl, rfl⟩

/-- C7: `getMemories` returns all stored entries (a list, never null), does
not mutate the state, returns the empty list when no prediction has been
made, and successful predictions only ever append at the end, so the stored
order is creation order, oldest first. -/
theorem getMemories_spec :
    (∀ s : EchoChamber, getMemories s = (s.echoMemories, s)) ∧
    (getMemories EchoChamber.init).1 = [] ∧
    (∀ ops : List Op, (∀ op ∈ ops, isSuccPredict op = false) →
      (getMemories (run EchoChamber.init ops)).1 = []) ∧
    (∀ (s : EchoChamber) (input : Input) (ts : String),
      ((predictNext s input ts).2.echoMemories).take s.echoMemories.length =
        s.echoMemories) := by
  refine ⟨fun s => rfl, rfl, ?_, ?_⟩
  · intro ops hops
    exact run_no_success ops hops EchoChamber.init rfl
  · intro s input ts
    cases hv : (validateSequence input).isValid with
    | false => rw [predictNext_state_false s input ts hv, List.take_length]
    | true =>
      rw [predictNext_state_true s input ts hv]
      exact List.take_left s.echoMemories _

/-- Witness for C7 on a trace without successful predictions. -/
theorem getMemories_spec_witness :
    (∀ op ∈ [Op.clear, Op.validate Input.notArray], isSuccPredict op = false) ∧
    (getMemories (run EchoChamber.init [Op.clear, Op.validate Input.notArray])).1 = [] := by
  refine ⟨?_, ?_⟩
  · simp [isSuccPredict]
  · exact getMemories_spec.2.2.1 [Op.clear, Op.validate Input.notArray]
      (by simp [isSuccPredict])

/-- C2: after `N` successful `predictNext` calls and no clear (starting from
a fresh instance), `getMemories` returns a list of length `N` whose entries
carry `predictionIndex` values `1..N` in creation order; after
`clearMemories`, the list is empty and the next successful `predictNext`
produces an entry with `predictionIndex` 1 again. -/
theorem history_indices (ops : List Op) (hnc : ∀ op ∈ ops, op ≠ Op.clear) :
    ((getMemories (run EchoChamber.init ops)).1.length = succCount ops ∧
     (getMemories (run EchoChamber.init ops)).1.map Memory.predictionIndex =
       List.range' 1 (succCount ops)) ∧
    (∀ s : EchoChamber, (getMemories (clearMemories s)).1.length = 0 ∧
      ∀ (input : Input) (ts : String),
        (predictNext (clearMemories s) input ts).1.success = true →
        (predictNext (clearMemories s) input ts).2.echoMemories.map
          Memory.predictionIndex = [1]) := by
  have hinv := chamberInv_run ops EchoChamber.init chamberInv_init
  have hlen : (run EchoChamber.init ops).echoMemories.length = succCount ops := by
    have h := run_length_noclear ops EchoChamber.init hnc
    simpa [EchoChamber.init] using h
  refine ⟨⟨?_, ?_⟩, ?_⟩
  · simpa [getMemories] using hlen
  · have h := hinv.2
    rw [hlen] at h
    simpa [getMemories] using h
  · intro s
    refine ⟨rfl, ?_⟩
    intro input ts hsucc
    have hv : (validateSequence input).isValid = true := by
      rw [← predictNext_success_eq (clearMemories s) input ts]
      exact hsucc
    rw [predictNext_state_true (clearMemories s) input ts hv]
    rfl

/-- Witness for C2 on a two-operation trace with one successful prediction. -/
theorem history_indices_witness :
    (∀ op ∈ [Op.predict (finSeq [3, 6, 9, 12]) "t", Op.validate Input.notArray],
      op ≠ Op.clear) ∧
    (getMemories (run EchoChamber.init
        [Op.predict (finSeq [3, 6, 9, 12]) "t", Op.validate Input.notArray])).1.map
      Memory.predictionIndex =
      List.range' 1 (succCount
        [Op.predict (finSeq [3, 6, 9, 12]) "t", Op.validate Input.notArray]) ∧
    (predictNext (clearMemories EchoChamber.init) (finSeq [5, 10]) "u").2.echoMemories.map
      Memory.predictionIndex = [1] := by
  have hnc : ∀ op ∈ [Op.predict (finSeq [3, 6, 9, 12]) "t", Op.validate Input.notArray],
      op ≠ Op.clear := by simp
  have h := history_indices
    [Op.predict (finSeq [3, 6, 9, 12]) "t", Op.validate Input.notArray] hnc
  have hv : (validateSequence (finSeq [5, 10])).isValid = true := by
    norm_num [validateSequence, finSeq, isValidNumber, jsIsNaN, asNum, jsSub, jsEq]
  refine ⟨hnc, h.1.2, (h.2 EchoChamber.init).2 (finSeq [5, 10]) "u" ?_⟩
  rw [predictNext_success_eq]
  exact hv

/-- C9 (implicit): for every operation sequence from construction, the
prediction counter equals the history length, and a successful `predictNext`
from such a state appends one entry whose `predictionIndex` equals the
resulting history length. -/
theorem counter_matches_history (ops : List Op) (input : Input) (ts : String) :
    (run EchoChamber.init ops).predictionCount =
      (run EchoChamber.init ops).echoMemories.length ∧
    ((predictNext (run EchoChamber.init ops) input ts).1.success = true →
      ∃ entry : Memory,
        (predictNext (run EchoChamber.init ops) input ts).2.echoMemories =
          (run EchoChamber.init ops).echoMemories ++ [entry] ∧
        entry.predictionIndex =
          (predictNext (run EchoChamber.init ops) input ts).2.echoMemories.length) := by
  have hinv := chamberInv_run ops EchoChamber.init chamberInv_init
  refine ⟨hinv.1, ?_⟩
  intro hsucc
  have hv : (validateSequence input).isValid = true := by
    rw [← predictNext_success_eq (run EchoChamber.init ops) input ts]
    exact hsucc
  rw [predictNext_state_true (run EchoChamber.init ops) input ts hv]
  refine ⟨_, rfl, ?_⟩
  simp [hinv.1]

/-- Witness for C9 on the empty trace followed by one successful prediction. -/
theorem counter_matches_history_witness :
    (run EchoChamber.init []).predictionCount =
      (run EchoChamber.init []).echoMemories.length ∧
    ∃ entry : Memory,
      (predictNext (run EchoChamber.init []) (finSeq [1, 2]) "t").2.echoMemories =
        (run EchoChamber.init []).echoMemories ++ [entry] ∧
      entry.predictionIndex =
        (predictNext (run EchoChamber.init []) (finSeq [1, 2]) "t").2.echoMemories.length := by
  have h := counter_matches_history [] (finSeq [1, 2]) "t"
  refine ⟨h.1, h.2 ?_⟩
  rw [predictNext_success_eq]
  norm_num [validateSequence, finSeq, isValidNumber, jsIsNaN, asNum, jsSub, jsEq]

/-- C8: the `GET /api/test` handler runs a prediction on the fixed self-test
sequence `[3, 6, 9, 12]` and responds with `success = true`, a `result` field
equal to that prediction (`nextNumber` 15, `commonDifference` 3), and a
message string. -/
theorem apiTest_response (chamber : EchoChamber) (ts : String) :
    (apiTestHandler chamber ts).1.success = true ∧
    (apiTestHandler chamber ts).1.result =
      (predictNext EchoChamber.init (finSeq [3, 6, 9, 12]) ts).1 ∧
    (apiTestHandler chamber ts).1.result.success = true ∧
    (apiTestHandler chamber ts).1.result.nextNumber = some (JSNum.fin 15) ∧
    (apiTestHandler chamber ts).1.result.commonDifference = some (JSNum.fin 3) ∧
    (apiTestHandler chamber ts).1.message = "Server is working correctly" := by
  refine ⟨?_, rfl, ?_, ?_, ?_, rfl⟩ <;>
    norm_num [apiTestHandler, predictNext, validateSequence, finSeq, isValidNumber,
      jsIsNaN, asNum, jsSub, jsAdd, jsEq, Input.toList, List.getLastD_cons,
      EchoChamber.init]

/-- C10 (implicit): `GET /api/test` constructs a fresh chamber, so it never
changes the shared chamber instance — the list returned by
`GET /api/memories` is the same before and after any number of `/api/test`
calls. -/
theorem apiTest_preserves_chamber (chamber : EchoChamber) (ts : String)
    (tss : List String) :
    (apiTestHandler chamber ts).2 = chamber ∧
    (apiMemoriesHandler (tss.foldl (fun c t => (apiTestHandler c t).2) chamber)).1 =
      (apiMemoriesHandler chamber).1 := by
  refine ⟨rfl, ?_⟩
  have hfold : tss.foldl (fun c t => (apiTestHandler c t).2) chamber = chamber := by
    induction tss with
    | nil => rfl
    | cons t rest ih => exact ih
  rw [hfold]
